import Mathlib

set_option maxHeartbeats 1000000
set_option maxRecDepth 100000

/-
  Verification of the contiguous physical-frame allocator in
  src/cont_frame_pool.C (class ContFramePool).

  Modelling conventions:
  * The packed per-frame state array ("bitmap") is a byte array modelled as a
    total function Nat → Fin 256 (byte index → byte value).  The C code indexes
    the array without bounds checks, so the model keeps the domain unbounded,
    making out-of-range reads and writes observable.
  * Machine counters (unsigned long / unsigned int) are modelled over ℕ.
    Wrap-around on under/overflow is not modelled; every theorem carries
    hypotheses that keep the counters in the range where C unsigned
    arithmetic and ℕ agree, except where a theorem explicitly avoids
    mentioning a counter that the C code would wrap.
  * The process-wide registry (static head/tail pointers plus the next/prev
    links declared in the header cont_frame_pool.H, which is not part of the
    sources at hand) is modelled as a Lean list of pools in insertion order,
    following the spec's description of the registry as a doubly linked list
    appended at the tail; splicing a pool out becomes removal from the list.
  * Console output is informational per the spec, except for the
    protocol-violation report in release_frames (line 325), which is
    modelled as a Bool result ("was the violation reported").
-/

/-- Per-frame state, as in the C enum: Free, Used (= Allocated),
HoS (= head of sequence), Error (reserved pattern 11). -/
inductive FrameState where
  | Free
  | Used
  | HoS
  | Error
deriving DecidableEq

/-- The switch in ContFramePool::get_state (lines 141-153):
00 = Free, 01 = Used, 10 = head-of-sequence, 11 = Error. -/
def decodeBits : Nat → FrameState
  | 0 => .Free
  | 1 => .Used
  | 2 => .HoS
  | _ => .Error

/-- ContFramePool::get_state (lines 114-161): byte index _frame_no / 4,
bit position (_frame_no % 4) * 2, read two bits. -/
def get_state (bm : Nat → Fin 256) (f : Nat) : FrameState :=
  decodeBits ((bm (f / 4) : Nat) >>> (f % 4 * 2) &&& 3)

/-- ContFramePool::set_state (lines 164-183).  mask = 0x3 << framePos; the C
expression bitmap[i] & ~mask promotes the byte to int, so on an 8-bit
operand it equals b &&& (255 - mask); the store back into the unsigned char
array truncates mod 256.  The switch has no case for FrameState::Error, so
passing Error leaves the array unchanged. -/
def set_state (bm : Nat → Fin 256) (f : Nat) (s : FrameState) : Nat → Fin 256 :=
  match s with
  | .Used => Function.update bm (f / 4)
      ⟨((bm (f / 4) : Nat) &&& (255 - (3 <<< (f % 4 * 2))) ||| (1 <<< (f % 4 * 2))) % 256,
        Nat.mod_lt _ (by norm_num)⟩
  | .Free => Function.update bm (f / 4)
      ⟨((bm (f / 4) : Nat) &&& (255 - (3 <<< (f % 4 * 2)))) % 256,
        Nat.mod_lt _ (by norm_num)⟩
  | .HoS => Function.update bm (f / 4)
      ⟨((bm (f / 4) : Nat) &&& (255 - (3 <<< (f % 4 * 2))) ||| (2 <<< (f % 4 * 2))) % 256,
        Nat.mod_lt _ (by norm_num)⟩
  | .Error => bm

/-- The 2-bit encoding of each state (the bit patterns written by set_state
and matched by get_state). -/
def encodeFS : FrameState → Nat
  | .Free => 0
  | .Used => 1
  | .HoS => 2
  | .Error => 3

/-- A pool instance: the data members of class ContFramePool.  The next/prev
registry links are represented by the pool's position in a registry list. -/
structure ContFramePool where
  base_frame_no : Nat
  nframes : Nat
  nFreeFrames : Nat
  info_frame_no : Nat
  bitmap : Nat → Fin 256

/-- Modelled from the spec: the fixed, externally defined frame size constant
(used only through FRAME_SIZE * 8 = bits per frame).  The header defining it
is not among the sources at hand; the spec describes 4 KiB-style fixed-size
frames, and no claim below depends on the particular value. -/
def FRAME_SIZE : Nat := 4096

/-- ContFramePool::needed_info_frames (lines 380-392):
(n * 2 + FRAME_SIZE_BITS - 1) / FRAME_SIZE_BITS with
FRAME_SIZE_BITS = FRAME_SIZE * 8. -/
def needed_info_frames (n : Nat) : Nat :=
  (n * 2 + FRAME_SIZE * 8 - 1) / (FRAME_SIZE * 8)

/-- The while loop of get_frames (lines 255-259): advance past Used / HoS
frames.  The C loop has no upper bound at all, so the model takes an explicit
termination budget; every theorem about get_frames assumes the scan succeeds
below that budget. -/
def scanFree (bm : Nat → Fin 256) : Nat → Nat → Nat
  | 0, k => k
  | fuel + 1, k =>
    if get_state bm k = FrameState.Used ∨ get_state bm k = FrameState.HoS then
      scanFree bm fuel (k + 1)
    else k

/-- The for loop of get_frames (lines 267-276): starting at frame k, set c
frames to Used, decrementing nFreeFrames once per frame. -/
def markUsedLoop : (Nat → Fin 256) → Nat → Nat → Nat → (Nat → Fin 256) × Nat
  | bm, free, _, 0 => (bm, free)
  | bm, free, k, c + 1 => markUsedLoop (set_state bm k .Used) (free - 1) (k + 1) c

/-- ContFramePool::get_frames (lines 247-285).  First-fit scan from relative
index 0; mark the found frame HoS, the next _n_frames - 1 frames Used
(the loop body runs _n_frames - 1 times; the claims below all have
_n_frames ≥ 1, where the ℕ truncated subtraction agrees with the C
unsigned int arithmetic); return the absolute head frame number.  The
assert(nFreeFrames > 0) at line 250 is a fatal precondition; theorems
assume pool states that satisfy it. -/
def get_frames (fuel : Nat) (p : ContFramePool) (n : Nat) : ContFramePool × Nat :=
  ({ p with
      bitmap := (markUsedLoop (set_state p.bitmap (scanFree p.bitmap fuel 0) .HoS)
        (p.nFreeFrames - 1) (scanFree p.bitmap fuel 0 + 1) (n - 1)).1,
      nFreeFrames := (markUsedLoop (set_state p.bitmap (scanFree p.bitmap fuel 0) .HoS)
        (p.nFreeFrames - 1) (scanFree p.bitmap fuel 0 + 1) (n - 1)).2 },
    scanFree p.bitmap fuel 0 + p.base_frame_no)

/-- The for loop of mark_inaccessible (lines 294-297): for fno running over
c absolute frame numbers starting at first, set_state(fno - base, Used). -/
def markInaLoop : (Nat → Fin 256) → Nat → Nat → Nat → (Nat → Fin 256)
  | bm, _, _, 0 => bm
  | bm, base, fno, c + 1 => markInaLoop (set_state bm (fno - base) .Used) base (fno + 1) c

/-- ContFramePool::mark_inaccessible (lines 291-298): every frame of the
range is set to Used (there is no HoS case and nFreeFrames is never
touched). -/
def mark_inaccessible (p : ContFramePool) (first n : Nat) : ContFramePool :=
  { p with bitmap := markInaLoop p.bitmap p.base_frame_no first n }

/-- The constructor ContFramePool::ContFramePool (lines 189-241), modelled on
a registry list plus the pre-existing contents initMem of the frame that will
hold the state array.  Faithful to the statement order of the source:
* the assert at line 195 reads the member nframes before it is assigned at
  line 198, so it does not actually constrain _n_frames;
* the initialisation loop at lines 204-207 runs before the bitmap pointer is
  assigned (lines 209-217), so it writes through the stale pointer value and
  never initialises the state array that the pool ends up using; the array
  keeps the pre-existing bytes initMem of the chosen info frame;
* line 223 then marks index info_frame_no - the absolute frame number, not
  the index relative to base_frame_no - as HoS on that array;
* nFreeFrames is set to _n_frames and decremented once (line 224); and the
  pool is appended at the registry tail (lines 226-238). -/
def construct (reg : List ContFramePool) (initMem : Nat → Fin 256)
    (base n info : Nat) : List ContFramePool × ContFramePool :=
  (reg ++ [{ base_frame_no := base, nframes := n, nFreeFrames := n - 1,
             info_frame_no := info, bitmap := set_state initMem info .HoS }],
   { base_frame_no := base, nframes := n, nFreeFrames := n - 1,
     info_frame_no := info, bitmap := set_state initMem info .HoS })

/-- The range test at line 318: base_frame_no <= f < base_frame_no + nframes. -/
def ownsFrame (p : ContFramePool) (f : Nat) : Bool :=
  decide (p.base_frame_no ≤ f) && decide (f < p.base_frame_no + p.nframes)

/-- The while loop of release_frames (lines 339-348): free consecutive Used
frames, bounded by frame < nframes, incrementing nFreeFrames per frame.  The
C loop is bounded only by that test; frames advance by one per iteration, so
a budget of nframes (the value the callers below pass) can never be exhausted
before the test fails, and the model coincides with the loop. -/
def freeLoop : (Nat → Fin 256) → Nat → Nat → Nat → Nat → (Nat → Fin 256) × Nat
  | bm, free, _, _, 0 => (bm, free)
  | bm, free, frame, nf, fuel + 1 =>
    if frame < nf ∧ get_state bm frame = FrameState.Used then
      freeLoop (set_state bm frame .Free) (free + 1) (frame + 1) nf fuel
    else (bm, free)

/-- The successful-release body of release_frames (lines 333-348), acting on
the pool whose range owns the released address: mark the head frame Free,
increment nFreeFrames, then run the freeing loop from the next frame.  The
pool object itself survives even when it is later unlinked. -/
def releasePoolBody (p : ContFramePool) (frame : Nat) : ContFramePool :=
  { p with
    bitmap := (freeLoop (set_state p.bitmap frame .Free) (p.nFreeFrames + 1)
      (frame + 1) p.nframes p.nframes).1,
    nFreeFrames := (freeLoop (set_state p.bitmap frame .Free) (p.nFreeFrames + 1)
      (frame + 1) p.nframes p.nframes).2 }

/-- ContFramePool::release_frames (lines 304-375) over the registry list.
Walk the pools in insertion order; at the first pool whose range contains f:
if the relative frame is not HoS, report the violation (Bool result true,
modelling the Console message at line 325) and stop with no mutation;
otherwise run the release body and, when the pool's nFreeFrames afterwards
equals nframes, splice the pool out of the registry (lines 354-369).  If no
pool's range contains f the walk falls through: no mutation and no report. -/
def release_frames : List ContFramePool → Nat → List ContFramePool × Bool
  | [], _ => ([], false)
  | p :: rest, f =>
    if ownsFrame p f then
      if get_state p.bitmap (f - p.base_frame_no) = FrameState.HoS then
        (if (releasePoolBody p (f - p.base_frame_no)).nFreeFrames = p.nframes
          then rest
          else releasePoolBody p (f - p.base_frame_no) :: rest, false)
      else (p :: rest, true)
    else
      (p :: (release_frames rest f).1, (release_frames rest f).2)

/-- Number of frames of the pool's range whose state reads Free: the
right-hand side of the spec's free-count invariant. -/
def countFree (p : ContFramePool) : Nat :=
  ((Finset.range p.nframes).filter (fun k => get_state p.bitmap k = FrameState.Free)).card

/-- A helper: spec-side description of c consecutive set_state writes of the
same state starting at frame k (the effect of the marking / freeing loops on
the byte array). -/
def setRange (s : FrameState) : (Nat → Fin 256) → Nat → Nat → (Nat → Fin 256)
  | bm, _, 0 => bm
  | bm, k, c + 1 => setRange s (set_state bm k s) (k + 1) c

/-- An all-zero byte array: every frame reads Free. -/
def zeroMem : Nat → Fin 256 := fun _ => 0

/-- Concrete pool over absolute frames 10..13: relative frame 0 is HoS (its
own info frame), frames 1-3 Free, free count 3 (consistent with the state
array). -/
def poolA : ContFramePool :=
  { base_frame_no := 10, nframes := 4, nFreeFrames := 3, info_frame_no := 10,
    bitmap := fun i => if i = 0 then 2 else 0 }

/-- Concrete pool over absolute frames 5..6: relative frame 0 HoS, frame 1
Free, free count 1 (consistent). -/
def poolB : ContFramePool :=
  { base_frame_no := 5, nframes := 2, nFreeFrames := 1, info_frame_no := 5,
    bitmap := fun i => if i = 0 then 2 else 0 }

/-- Concrete pool over absolute frames 0..1, both frames Free, free count 2
(consistent). -/
def poolC : ContFramePool :=
  { base_frame_no := 0, nframes := 2, nFreeFrames := 2, info_frame_no := 0,
    bitmap := zeroMem }

/-- Concrete one-frame pool whose single frame is an allocated head, free
count 0 (consistent): releasing it makes the pool fully free. -/
def poolD : ContFramePool :=
  { base_frame_no := 0, nframes := 1, nFreeFrames := 0, info_frame_no := 0,
    bitmap := fun i => if i = 0 then 2 else 0 }

/-- The constructor run of the spec's own worked scenario: a pool over
absolute frames 100..109 with the state array in frame 100, over zeroed
memory. -/
def poolScenario : List ContFramePool × ContFramePool :=
  construct [] zeroMem 100 10 100

/-
  Theorems.  First the byte-level facts about the 2-bit codec, established by
  finite case analysis over all byte values and field positions.
-/

theorem byte_set_read_same : ∀ b < 256, ∀ r < 4, ∀ v < 3,
    ((b &&& (255 - (3 <<< (r * 2))) ||| (v <<< (r * 2))) % 256) >>> (r * 2) &&& 3 = v := by
  decide

theorem byte_clear_read_same : ∀ b < 256, ∀ r < 4,
    ((b &&& (255 - (3 <<< (r * 2)))) % 256) >>> (r * 2) &&& 3 = 0 := by
  decide

theorem byte_set_read_other : ∀ b < 256, ∀ r < 4, ∀ t < 4, ∀ v < 3, r ≠ t →
    ((b &&& (255 - (3 <<< (r * 2))) ||| (v <<< (r * 2))) % 256) >>> (t * 2) &&& 3 =
      b >>> (t * 2) &&& 3 := by
  decide

theorem byte_clear_read_other : ∀ b < 256, ∀ r < 4, ∀ t < 4, r ≠ t →
    ((b &&& (255 - (3 <<< (r * 2)))) % 256) >>> (t * 2) &&& 3 =
      b >>> (t * 2) &&& 3 := by
  decide

theorem get_set_same (bm : Nat → Fin 256) (f : Nat) (s : FrameState)
    (hs : s ≠ FrameState.Error) : get_state (set_state bm f s) f = s := by
  have hb : (bm (f / 4) : Nat) < 256 := (bm (f / 4)).isLt
  have hr : f % 4 < 4 := Nat.mod_lt f (by norm_num)
  cases s with
  | Error => exact absurd rfl hs
  | Free =>
    simp only [get_state, set_state, Function.update_same]
    exact (congrArg decodeBits (byte_clear_read_same _ hb _ hr)).trans rfl
  | Used =>
    simp only [get_state, set_state, Function.update_same]
    exact (congrArg decodeBits (byte_set_read_same _ hb _ hr 1 (by norm_num))).trans rfl
  | HoS =>
    simp only [get_state, set_state, Function.update_same]
    exact (congrArg decodeBits (byte_set_read_same _ hb _ hr 2 (by norm_num))).trans rfl

theorem get_set_other (bm : Nat → Fin 256) (f : Nat) (s : FrameState) (g : Nat)
    (hg : g ≠ f) : get_state (set_state bm f s) g = get_state bm g := by
  have hb : (bm (f / 4) : Nat) < 256 := (bm (f / 4)).isLt
  have hrf : f % 4 < 4 := Nat.mod_lt f (by norm_num)
  have hrg : g % 4 < 4 := Nat.mod_lt g (by norm_num)
  by_cases hidx : g / 4 = f / 4
  · have hpos : f % 4 ≠ g % 4 := by omega
    cases s with
    | Error => rfl
    | Free =>
      simp only [get_state, set_state]
      rw [hidx, Function.update_same]
      exact congrArg decodeBits (byte_clear_read_other _ hb _ hrf _ hrg hpos)
    | Used =>
      simp only [get_state, set_state]
      rw [hidx, Function.update_same]
      exact congrArg decodeBits (byte_set_read_other _ hb _ hrf _ hrg 1 (by norm_num) hpos)
    | HoS =>
      simp only [get_state, set_state]
      rw [hidx, Function.update_same]
      exact congrArg decodeBits (byte_set_read_other _ hb _ hrf _ hrg 2 (by norm_num) hpos)
  · cases s with
    | Error => rfl
    | Free => simp only [get_state, set_state, Function.update_noteq hidx]
    | Used => simp only [get_state, set_state, Function.update_noteq hidx]
    | HoS => simp only [get_state, set_state, Function.update_noteq hidx]

theorem set_state_Error_noop (bm : Nat → Fin 256) (f : Nat) :
    set_state bm f FrameState.Error = bm := rfl

theorem setRange_get_out (s : FrameState) :
    ∀ (c : Nat) (bm : Nat → Fin 256) (k j : Nat), j < k ∨ k + c ≤ j →
      get_state (setRange s bm k c) j = get_state bm j := by
  intro c
  induction c with
  | zero => intro bm k j _; rfl
  | succ c ih =>
    intro bm k j hj
    have h1 : get_state (setRange s (set_state bm k s) (k + 1) c) j =
        get_state (set_state bm k s) j := ih _ (k + 1) j (by omega)
    have h2 : get_state (set_state bm k s) j = get_state bm j :=
      get_set_other bm k s j (by omega)
    exact h1.trans h2

theorem setRange_get_in (s : FrameState) (hs : s ≠ FrameState.Error) :
    ∀ (c : Nat) (bm : Nat → Fin 256) (k i : Nat), i < c →
      get_state (setRange s bm k c) (k + i) = s := by
  intro c
  induction c with
  | zero => intro bm k i hi; omega
  | succ c ih =>
    intro bm k i hi
    rcases Nat.eq_zero_or_pos i with hz | hpos
    · subst hz
      have hout : get_state (setRange s (set_state bm k s) (k + 1) c) (k + 0) =
          get_state (set_state bm k s) (k + 0) :=
        setRange_get_out s c (set_state bm k s) (k + 1) (k + 0) (by omega)
      exact hout.trans (get_set_same bm k s hs)
    · have heq : k + i = (k + 1) + (i - 1) := by omega
      show get_state (setRange s (set_state bm k s) (k + 1) c) (k + i) = s
      rw [heq]
      exact ih (set_state bm k s) (k + 1) (i - 1) (by omega)

theorem markUsedLoop_spec :
    ∀ (c : Nat) (bm : Nat → Fin 256) (free k : Nat),
      markUsedLoop bm free k c = (setRange FrameState.Used bm k c, free - c) := by
  intro c
  induction c with
  | zero => intro bm free k; rfl
  | succ c ih =>
    intro bm free k
    show markUsedLoop (set_state bm k .Used) (free - 1) (k + 1) c = _
    rw [ih]
    refine Prod.ext rfl ?_
    show free - 1 - c = free - (c + 1)
    omega

theorem scanFree_spec (bm : Nat → Fin 256) :
    ∀ (fuel k h : Nat), k ≤ h → h < k + fuel →
      (∀ j, k ≤ j → j < h → (get_state bm j = FrameState.Used ∨ get_state bm j = FrameState.HoS)) →
      ¬(get_state bm h = FrameState.Used ∨ get_state bm h = FrameState.HoS) →
      scanFree bm fuel k = h := by
  intro fuel
  induction fuel with
  | zero => intro k h hk hlt _ _; omega
  | succ fuel ih =>
    intro k h hk hlt hall hstop
    by_cases heq : k = h
    · subst heq
      show (if _ then _ else _) = k
      rw [if_neg hstop]
    · have hklt : k < h := lt_of_le_of_ne hk heq
      show (if _ then _ else _) = h
      rw [if_pos (hall k le_rfl hklt)]
      exact ih (k + 1) h hklt (by omega) (fun j hj1 hj2 => hall j (by omega) hj2) hstop

theorem freeLoop_spec :
    ∀ (c : Nat) (bm : Nat → Fin 256) (free k nf fuel : Nat),
      (∀ i, i < c → get_state bm (k + i) = FrameState.Used) →
      k + c ≤ nf → c ≤ fuel →
      (k + c = nf ∨ get_state bm (k + c) ≠ FrameState.Used) →
      freeLoop bm free k nf fuel = (setRange FrameState.Free bm k c, free + c) := by
  intro c
  induction c with
  | zero =>
    intro bm free k nf fuel _ hcap _ hstop
    cases fuel with
    | zero => rfl
    | succ fuel =>
      show (if _ then _ else _) = _
      rw [if_neg]
      · rfl
      · rintro ⟨hlt, hused⟩
        rcases hstop with hnf | hne
        · omega
        · exact hne (by simpa using hused)
  | succ c ih =>
    intro bm free k nf fuel hall hcap hfuel hstop
    cases fuel with
    | zero => omega
    | succ fuel =>
      show (if _ then _ else _) = _
      rw [if_pos ⟨by omega, by simpa using hall 0 (by omega)⟩]
      have hall' : ∀ i, i < c → get_state (set_state bm k .Free) ((k + 1) + i) = FrameState.Used := by
        intro i hi
        rw [get_set_other bm k .Free ((k + 1) + i) (by omega)]
        have := hall (i + 1) (by omega)
        rw [show k + (i + 1) = (k + 1) + i by omega] at this
        exact this
      have hstop' : (k + 1) + c = nf ∨
          get_state (set_state bm k .Free) ((k + 1) + c) ≠ FrameState.Used := by
        rcases hstop with hnf | hne
        · left; omega
        · right
          rw [get_set_other bm k .Free ((k + 1) + c) (by omega)]
          rw [show (k + 1) + c = k + (c + 1) by omega]
          exact hne
      rw [ih (set_state bm k .Free) (free + 1) (k + 1) nf fuel hall' (by omega) (by omega) hstop']
      refine Prod.ext rfl ?_
      show free + 1 + c = free + (c + 1)
      omega

theorem get_frames_eq (fuel : Nat) (p : ContFramePool) (n h : Nat)
    (hpre : ∀ k, k < h →
      get_state p.bitmap k = FrameState.Used ∨ get_state p.bitmap k = FrameState.HoS)
    (hfree : get_state p.bitmap h = FrameState.Free)
    (hfuel : h < fuel) :
    get_frames fuel p n =
      ({ p with
          bitmap := setRange FrameState.Used (set_state p.bitmap h .HoS) (h + 1) (n - 1),
          nFreeFrames := p.nFreeFrames - 1 - (n - 1) },
       h + p.base_frame_no) := by
  have hscan : scanFree p.bitmap fuel 0 = h :=
    scanFree_spec p.bitmap fuel 0 h (Nat.zero_le h) (by omega)
      (fun j _ hj => hpre j hj) (by simp [hfree])
  simp only [get_frames, hscan, markUsedLoop_spec]

theorem countFree_ge (p : ContFramePool) (h n : Nat)
    (hrun : ∀ i, i < n → get_state p.bitmap (h + i) = FrameState.Free)
    (hcap : h + n ≤ p.nframes) : n ≤ countFree p := by
  have hsub : Finset.Ico h (h + n) ⊆
      (Finset.range p.nframes).filter (fun k => get_state p.bitmap k = FrameState.Free) := by
    intro k hk
    rw [Finset.mem_Ico] at hk
    rw [Finset.mem_filter, Finset.mem_range]
    refine ⟨by omega, ?_⟩
    have hfree := hrun (k - h) (by omega)
    rw [show h + (k - h) = k by omega] at hfree
    exact hfree
  have hcard := Finset.card_le_card hsub
  rw [Nat.card_Ico] at hcard
  calc n = h + n - h := by omega
  _ ≤ countFree p := hcard

/-- C1: for a pool whose free counter matches its state array and whose first
Free frame h (every lower frame reading Used or HoS) starts a run of at least
n ≥ 1 Free frames inside the pool, get_frames performs the first-fit scan from
relative index 0, marks h HoS and the following n - 1 frames Used (so exactly
the head of the returned run reads HoS), returns the absolute frame number
h + base_frame_no, and decreases nFreeFrames by exactly n. -/
theorem get_frames_first_fit (fuel : Nat) (p : ContFramePool) (n h : Nat)
    (hn : 1 ≤ n)
    (hinv : p.nFreeFrames = countFree p)
    (hpre : ∀ k, k < h →
      get_state p.bitmap k = FrameState.Used ∨ get_state p.bitmap k = FrameState.HoS)
    (hrun : ∀ i, i < n → get_state p.bitmap (h + i) = FrameState.Free)
    (hcap : h + n ≤ p.nframes)
    (hfuel : h < fuel) :
    (get_frames fuel p n).2 = h + p.base_frame_no ∧
    (∀ i, i < n →
      (get_state (get_frames fuel p n).1.bitmap (h + i) = FrameState.HoS ↔ i = 0)) ∧
    (∀ i, 1 ≤ i → i < n →
      get_state (get_frames fuel p n).1.bitmap (h + i) = FrameState.Used) ∧
    (get_frames fuel p n).1.nFreeFrames + n = p.nFreeFrames := by
  have hfree0 : get_state p.bitmap h = FrameState.Free := by simpa using hrun 0 (by omega)
  have hcnt : n ≤ p.nFreeFrames := by
    rw [hinv]; exact countFree_ge p h n hrun hcap
  rw [get_frames_eq fuel p n h hpre hfree0 hfuel]
  dsimp only
  have hhead : get_state
      (setRange FrameState.Used (set_state p.bitmap h .HoS) (h + 1) (n - 1)) h =
      FrameState.HoS := by
    rw [setRange_get_out FrameState.Used (n - 1) _ (h + 1) h (by omega)]
    exact get_set_same p.bitmap h .HoS (by simp)
  have htail : ∀ i, 1 ≤ i → i < n → get_state
      (setRange FrameState.Used (set_state p.bitmap h .HoS) (h + 1) (n - 1)) (h + i) =
      FrameState.Used := by
    intro i h1 h2
    rw [show h + i = (h + 1) + (i - 1) by omega]
    exact setRange_get_in FrameState.Used (by simp) (n - 1) _ (h + 1) (i - 1) (by omega)
  refine ⟨rfl, ?_, htail, by omega⟩
  intro i hi
  rcases Nat.eq_zero_or_pos i with hz | hpos
  · subst hz
    simpa using hhead
  · rw [htail i (by omega) hi]
    constructor
    · intro hcontra; exact absurd hcontra (by simp)
    · omega

/-- Witness for C1 on a concrete pool: frames 10..13, frame 10 an allocated
head, frames 11..13 free; requesting 2 frames allocates 11 and 12. -/
theorem get_frames_first_fit_witness :
    (get_frames 10 poolA 2).2 = 1 + poolA.base_frame_no ∧
    (∀ i, i < 2 →
      (get_state (get_frames 10 poolA 2).1.bitmap (1 + i) = FrameState.HoS ↔ i = 0)) ∧
    (∀ i, 1 ≤ i → i < 2 →
      get_state (get_frames 10 poolA 2).1.bitmap (1 + i) = FrameState.Used) ∧
    (get_frames 10 poolA 2).1.nFreeFrames + 2 = poolA.nFreeFrames :=
  get_frames_first_fit 10 poolA 2 1 (by decide) (by decide) (by decide) (by decide)
    (by decide) (by decide)

theorem releasePoolBody_spec (p : ContFramePool) (h n : Nat)
    (hn : 1 ≤ n)
    (htail : ∀ i, 1 ≤ i → i < n → get_state p.bitmap (h + i) = FrameState.Used)
    (hcap : h + n ≤ p.nframes)
    (hstop : h + n = p.nframes ∨ get_state p.bitmap (h + n) ≠ FrameState.Used) :
    releasePoolBody p h =
      { p with
          bitmap := setRange FrameState.Free (set_state p.bitmap h .Free) (h + 1) (n - 1),
          nFreeFrames := p.nFreeFrames + 1 + (n - 1) } := by
  have hall : ∀ i, i < n - 1 →
      get_state (set_state p.bitmap h .Free) ((h + 1) + i) = FrameState.Used := by
    intro i hi
    rw [get_set_other p.bitmap h .Free ((h + 1) + i) (by omega)]
    have htl := htail (i + 1) (by omega) (by omega)
    rw [show h + (i + 1) = (h + 1) + i by omega] at htl
    exact htl
  have hstop' : (h + 1) + (n - 1) = p.nframes ∨
      get_state (set_state p.bitmap h .Free) ((h + 1) + (n - 1)) ≠ FrameState.Used := by
    rcases hstop with hnf | hne
    · left; omega
    · right
      rw [show (h + 1) + (n - 1) = h + n by omega]
      rw [get_set_other p.bitmap h .Free (h + n) (by omega)]
      exact hne
  simp only [releasePoolBody]
  rw [freeLoop_spec (n - 1) (set_state p.bitmap h .Free) (p.nFreeFrames + 1) (h + 1)
    p.nframes p.nframes hall (by omega) (by omega) hstop']

/-- C2: allocating a run of n ≥ 1 frames with get_frames and immediately
releasing the returned head frame number restores nFreeFrames to its
pre-allocation value and sets every frame of the run back to Free; the
released pool stays in the registry unless the release makes it fully free.
The hypothesis hstop (the frame one past the run is not Used, unless the run
ends the pool) is the spec's run-delimiting invariant (an Allocated frame
never directly follows a Free frame), and hinv is the spec's free-count
invariant for the starting pool. -/
theorem alloc_release_roundtrip (fuel : Nat) (p : ContFramePool) (n h : Nat)
    (hn : 1 ≤ n)
    (hinv : p.nFreeFrames = countFree p)
    (hpre : ∀ k, k < h →
      get_state p.bitmap k = FrameState.Used ∨ get_state p.bitmap k = FrameState.HoS)
    (hrun : ∀ i, i < n → get_state p.bitmap (h + i) = FrameState.Free)
    (hcap : h + n ≤ p.nframes)
    (hfuel : h < fuel)
    (hstop : h + n = p.nframes ∨ get_state p.bitmap (h + n) ≠ FrameState.Used) :
    (releasePoolBody (get_frames fuel p n).1
        ((get_frames fuel p n).2 - p.base_frame_no)).nFreeFrames = p.nFreeFrames ∧
    (∀ i, i < n → get_state (releasePoolBody (get_frames fuel p n).1
        ((get_frames fuel p n).2 - p.base_frame_no)).bitmap (h + i) = FrameState.Free) ∧
    (release_frames [(get_frames fuel p n).1] ((get_frames fuel p n).2)).1 =
      (if p.nFreeFrames = p.nframes then []
       else [releasePoolBody (get_frames fuel p n).1
         ((get_frames fuel p n).2 - p.base_frame_no)]) := by
  have hfree0 : get_state p.bitmap h = FrameState.Free := by simpa using hrun 0 (by omega)
  have hcnt : n ≤ p.nFreeFrames := by
    rw [hinv]; exact countFree_ge p h n hrun hcap
  rw [get_frames_eq fuel p n h hpre hfree0 hfuel]
  dsimp only
  rw [show h + p.base_frame_no - p.base_frame_no = h by omega]
  have hhead : get_state
      (setRange FrameState.Used (set_state p.bitmap h .HoS) (h + 1) (n - 1)) h =
      FrameState.HoS := by
    rw [setRange_get_out FrameState.Used (n - 1) _ (h + 1) h (by omega)]
    exact get_set_same p.bitmap h .HoS (by simp)
  have htail : ∀ i, 1 ≤ i → i < n → get_state
      (setRange FrameState.Used (set_state p.bitmap h .HoS) (h + 1) (n - 1)) (h + i) =
      FrameState.Used := by
    intro i h1 h2
    rw [show h + i = (h + 1) + (i - 1) by omega]
    exact setRange_get_in FrameState.Used (by simp) (n - 1) _ (h + 1) (i - 1) (by omega)
  have hout : get_state
      (setRange FrameState.Used (set_state p.bitmap h .HoS) (h + 1) (n - 1)) (h + n) =
      get_state p.bitmap (h + n) := by
    rw [setRange_get_out FrameState.Used (n - 1) _ (h + 1) (h + n) (by omega)]
    exact get_set_other p.bitmap h .HoS (h + n) (by omega)
  have hrel := releasePoolBody_spec
    { p with
        bitmap := setRange FrameState.Used (set_state p.bitmap h .HoS) (h + 1) (n - 1),
        nFreeFrames := p.nFreeFrames - 1 - (n - 1) } h n hn htail hcap
    (by rcases hstop with hnf | hne
        · exact Or.inl hnf
        · exact Or.inr (by rw [hout]; exact hne))
  rw [hrel]
  dsimp only
  refine ⟨by omega, ?_, ?_⟩
  · intro i hi
    rcases Nat.eq_zero_or_pos i with hz | hpos
    · subst hz
      rw [show h + 0 = h by omega]
      rw [setRange_get_out FrameState.Free (n - 1) _ (h + 1) h (by omega)]
      exact get_set_same _ h .Free (by simp)
    · rw [show h + i = (h + 1) + (i - 1) by omega]
      exact setRange_get_in FrameState.Free (by simp) (n - 1) _ (h + 1) (i - 1) (by omega)
  · have hown : ownsFrame
        { p with
            bitmap := setRange FrameState.Used (set_state p.bitmap h .HoS) (h + 1) (n - 1),
            nFreeFrames := p.nFreeFrames - 1 - (n - 1) } (h + p.base_frame_no) = true := by
      simp only [ownsFrame, Bool.and_eq_true, decide_eq_true_eq]
      constructor
      · omega
      · show h + p.base_frame_no < p.base_frame_no + p.nframes
        omega
    simp only [release_frames]
    rw [if_pos hown]
    rw [show h + p.base_frame_no - p.base_frame_no = h by omega]
    rw [if_pos hhead]
    rw [hrel]
    dsimp only
    rw [show p.nFreeFrames - 1 - (n - 1) + 1 + (n - 1) = p.nFreeFrames by omega]

/-- Witness for C2: on the concrete pool over frames 10..13 (head frame 10
allocated, 11..13 free), allocating 2 frames and releasing the returned head
restores the free count 3 and frames 11, 12 to Free; the pool stays linked. -/
theorem alloc_release_roundtrip_witness :
    (releasePoolBody (get_frames 10 poolA 2).1
        ((get_frames 10 poolA 2).2 - poolA.base_frame_no)).nFreeFrames = poolA.nFreeFrames ∧
    (∀ i, i < 2 → get_state (releasePoolBody (get_frames 10 poolA 2).1
        ((get_frames 10 poolA 2).2 - poolA.base_frame_no)).bitmap (1 + i) = FrameState.Free) ∧
    (release_frames [(get_frames 10 poolA 2).1] ((get_frames 10 poolA 2).2)).1 =
      (if poolA.nFreeFrames = poolA.nframes then []
       else [releasePoolBody (get_frames 10 poolA 2).1
         ((get_frames 10 poolA 2).2 - poolA.base_frame_no)]) :=
  alloc_release_roundtrip 10 poolA 2 1 (by decide) (by decide) (by decide) (by decide)
    (by decide) (by decide) (by decide)

/-- C4 (counterexample): releasing an absolute frame number owned by no pool
in the registry is a silent no-op: the registry and every pool are unchanged,
but - contrary to the claim - no violation is reported (Bool result false).
Frame 10 lies outside the only pool's range 0..1. -/
theorem release_unowned_silent :
    (release_frames [poolC] 10).1 = [poolC] ∧ (release_frames [poolC] 10).2 = false :=
  ⟨rfl, rfl⟩

/-- C4 (amended): whenever every pool owning frame f has a non-HoS state at
the corresponding relative index (which also covers the case that no pool
owns f at all), release_frames mutates no frame state and no free count in
any pool, and it reports the protocol violation exactly when some pool's
range contains f; when f is owned by no pool the walk falls through silently
with no report. -/
theorem release_violation_no_mutation (reg : List ContFramePool) (f : Nat)
    (h : ∀ p ∈ reg, ownsFrame p f = true →
      get_state p.bitmap (f - p.base_frame_no) ≠ FrameState.HoS) :
    (release_frames reg f).1 = reg ∧
    (release_frames reg f).2 = reg.any (fun p => ownsFrame p f) := by
  induction reg with
  | nil => exact ⟨rfl, rfl⟩
  | cons p rest ih =>
    by_cases hp : ownsFrame p f = true
    · have hnh := h p (by simp) hp
      simp only [release_frames]
      rw [if_pos hp, if_neg hnh]
      exact ⟨rfl, by simp [List.any_cons, hp]⟩
    · have hpf : ownsFrame p f = false := by
        cases hval : ownsFrame p f with
        | false => rfl
        | true => exact absurd hval hp
      have ih' := ih (fun q hq ho => h q (by simp [hq]) ho)
      simp only [release_frames]
      rw [if_neg hp]
      refine ⟨?_, ?_⟩
      · dsimp only; rw [ih'.1]
      · dsimp only; rw [ih'.2]; simp [List.any_cons, hpf]

/-- Witness for the amended C4: frame 6 is inside the pool over frames 5..6
but its state is Free, not HoS; the release changes nothing and reports the
violation (the registry contains an owning pool). -/
theorem release_violation_no_mutation_witness :
    (release_frames [poolB] 6).1 = [poolB] ∧
    (release_frames [poolB] 6).2 = [poolB].any (fun p => ownsFrame p 6) :=
  release_violation_no_mutation [poolB] 6 (by decide)

/-- C8: when release_frames succeeds on the first owning pool (head state
HoS, pools earlier in the registry not owning the frame), the pool is spliced
out of the registry exactly when its resulting free count equals its frame
count, and stays linked in place otherwise; in both cases the updated pool
object releasePoolBody p (f - base) remains available to its owner. -/
theorem release_unlinks_fully_free_pool (l1 l2 : List ContFramePool)
    (p : ContFramePool) (f : Nat)
    (hskip : ∀ q ∈ l1, ownsFrame q f = false)
    (hown : ownsFrame p f = true)
    (hhead : get_state p.bitmap (f - p.base_frame_no) = FrameState.HoS) :
    (release_frames (l1 ++ p :: l2) f).1 =
      (if (releasePoolBody p (f - p.base_frame_no)).nFreeFrames = p.nframes
       then l1 ++ l2
       else l1 ++ releasePoolBody p (f - p.base_frame_no) :: l2) := by
  induction l1 with
  | nil =>
    simp only [List.nil_append, release_frames]
    rw [if_pos hown, if_pos hhead]
  | cons q l1' ih =>
    have hqf : ownsFrame q f = false := hskip q (by simp)
    have ih' := ih (fun r hr => hskip r (by simp [hr]))
    simp only [List.cons_append, release_frames]
    rw [if_neg (by simp [hqf])]
    dsimp only
    simp only [List.append_eq]
    rw [ih']
    by_cases hc : (releasePoolBody p (f - p.base_frame_no)).nFreeFrames = p.nframes
    · simp [hc]
    · simp [hc]

/-- Witness for C8: releasing the single allocated head of a one-frame pool
brings its free count up to its frame count, and the pool is spliced out of
the (singleton) registry. -/
theorem release_unlinks_fully_free_pool_witness :
    (release_frames ([] ++ poolD :: []) 0).1 =
      (if (releasePoolBody poolD (0 - poolD.base_frame_no)).nFreeFrames = poolD.nframes
       then [] ++ ([] : List ContFramePool)
       else [] ++ releasePoolBody poolD (0 - poolD.base_frame_no) :: []) :=
  release_unlinks_fully_free_pool [] [] poolD 0 (by simp) (by decide) (by decide)

/-- C9: for every byte array, frame number and valid state (Free, Used, HoS),
set_state writes exactly the 2-bit pattern 00 / 01 / 10 of that state into
the frame's field (so get_state reads the state back), leaves every other
frame's state unchanged, and passing the reserved Error value (pattern 11)
leaves the array untouched - set_state never writes the 11 pattern. -/
theorem set_get_state_codec (bm : Nat → Fin 256) (f : Nat) (s : FrameState)
    (hs : s ≠ FrameState.Error) :
    get_state (set_state bm f s) f = s ∧
    ((set_state bm f s (f / 4) : Nat) >>> (f % 4 * 2) &&& 3 = encodeFS s) ∧
    (∀ g, g ≠ f → get_state (set_state bm f s) g = get_state bm g) ∧
    set_state bm f FrameState.Error = bm := by
  refine ⟨get_set_same bm f s hs, ?_, fun g hg => get_set_other bm f s g hg, rfl⟩
  have hb : (bm (f / 4) : Nat) < 256 := (bm (f / 4)).isLt
  have hr : f % 4 < 4 := Nat.mod_lt f (by norm_num)
  cases s with
  | Error => exact absurd rfl hs
  | Free =>
    simp only [set_state, Function.update_same]
    exact byte_clear_read_same _ hb _ hr
  | Used =>
    simp only [set_state, Function.update_same]
    exact byte_set_read_same _ hb _ hr 1 (by norm_num)
  | HoS =>
    simp only [set_state, Function.update_same]
    exact byte_set_read_same _ hb _ hr 2 (by norm_num)

/-- Witness for C9: writing HoS for frame 5 into a zeroed array reads back
HoS at frame 5 and leaves frame 6 (same byte) unchanged. -/
theorem set_get_state_codec_witness :
    get_state (set_state zeroMem 5 FrameState.HoS) 5 = FrameState.HoS ∧
    get_state (set_state zeroMem 5 FrameState.HoS) 6 = get_state zeroMem 6 :=
  ⟨(set_get_state_codec zeroMem 5 FrameState.HoS (by decide)).1,
   (set_get_state_codec zeroMem 5 FrameState.HoS (by decide)).2.2.1 6 (by decide)⟩

/-- C10: needed_info_frames n is the least number of whole frames whose bit
capacity (FRAME_SIZE * 8 bits each) covers the n * 2 state bits - that is,
the ceiling of n * 2 / (FRAME_SIZE * 8) - and it is monotonically
non-decreasing in n. -/
theorem needed_info_frames_minimal_monotone :
    (∀ n, 2 * n ≤ needed_info_frames n * (FRAME_SIZE * 8)) ∧
    (∀ n k, 2 * n ≤ k * (FRAME_SIZE * 8) → needed_info_frames n ≤ k) ∧
    (∀ a b, a ≤ b → needed_info_frames a ≤ needed_info_frames b) := by
  refine ⟨fun n => ?_, fun n k hk => ?_, fun a b hab => ?_⟩
  · simp only [needed_info_frames, FRAME_SIZE]
    omega
  · simp only [needed_info_frames, FRAME_SIZE] at hk ⊢
    omega
  · simp only [needed_info_frames, FRAME_SIZE]
    omega

/-- Witness for C10: one frame suffices for 5 frames' state, and the function
is monotone between 3 and 5. -/
theorem needed_info_frames_witness :
    needed_info_frames 5 ≤ 1 ∧ needed_info_frames 3 ≤ needed_info_frames 5 :=
  ⟨needed_info_frames_minimal_monotone.2.1 5 1 (by decide),
   needed_info_frames_minimal_monotone.2.2 3 5 (by decide)⟩

/-- C3 (evaluation at a failing input): the free-count invariant does not
survive the code's own operations.  After constructing the spec's worked
scenario (pool over frames 100..109, state array in frame 100, zeroed
memory), nFreeFrames is 9 but 10 frames of the range read Free, because the
constructor marks the absolute index 100 instead of relative index 0.  And
mark_inaccessible, applied to a pool that satisfies the invariant (poolC,
2 free frames, counter 2), marks both frames Used yet leaves the counter at
2, breaking the invariant again. -/
theorem free_count_invariant_fails :
    (poolScenario.2.nFreeFrames = 9 ∧ countFree poolScenario.2 = 10 ∧
      poolScenario.2.nFreeFrames ≠ countFree poolScenario.2) ∧
    (poolC.nFreeFrames = countFree poolC ∧
      (mark_inaccessible poolC 0 2).nFreeFrames = 2 ∧
      countFree (mark_inaccessible poolC 0 2) = 0 ∧
      (mark_inaccessible poolC 0 2).nFreeFrames ≠
        countFree (mark_inaccessible poolC 0 2)) := by
  decide

/-- C5 (evaluation at a failing input): poolB has 2 frames (head allocated,
one free); requesting 3 frames does not report an out-of-space failure - it
returns the frame number 6 - and the marking loop writes Used into relative
indices 2 and 3, both at or beyond the pool's frame count of 2, which were
Free before the call. -/
theorem get_frames_overruns_pool_bound :
    (get_frames 10 poolB 3).2 = 6 ∧
    poolB.nframes = 2 ∧
    get_state poolB.bitmap 2 = FrameState.Free ∧
    get_state poolB.bitmap 3 = FrameState.Free ∧
    get_state (get_frames 10 poolB 3).1.bitmap 2 = FrameState.Used ∧
    get_state (get_frames 10 poolB 3).1.bitmap 3 = FrameState.Used := by
  decide

/-- C6 (evaluation at a failing input): mark_inaccessible over the whole
2-frame range of poolC marks the first frame Used - not HeadOfSequence - and
leaves nFreeFrames untouched instead of decreasing it by 2. -/
theorem mark_inaccessible_no_head_no_decrement :
    get_state (mark_inaccessible poolC 0 2).bitmap 0 = FrameState.Used ∧
    get_state (mark_inaccessible poolC 0 2).bitmap 0 ≠ FrameState.HoS ∧
    get_state (mark_inaccessible poolC 0 2).bitmap 1 = FrameState.Used ∧
    (mark_inaccessible poolC 0 2).nFreeFrames = poolC.nFreeFrames := by
  decide

/-- C7 (evaluation at a failing input): constructing the spec's worked
scenario (base 100, 10 frames, state array in frame 100) leaves relative
frame 0 - the frame that holds the state array - reading Free instead of
HeadOfSequence; the HoS mark lands at relative index 100 (absolute frame
200, outside the pool) because line 223 passes the absolute info frame
number to set_state.  The free count frame_count - 1 = 9 and the append of
the new pool at the registry tail do hold. -/
theorem constructor_marks_wrong_frame :
    get_state poolScenario.2.bitmap 0 = FrameState.Free ∧
    get_state poolScenario.2.bitmap 0 ≠ FrameState.HoS ∧
    get_state poolScenario.2.bitmap 100 = FrameState.HoS ∧
    poolScenario.2.nFreeFrames = 9 ∧
    poolScenario.1 = [poolScenario.2] :=
  ⟨by decide, by decide, by decide, by decide, rfl⟩
